import Mathlib

/-!
A verification development for the `arrayref` crate: fixed-length array
views into slices (the `array_ref!`, `array_mut_ref!`, `array_refs!` and
`mut_array_refs!` macros of `src/lib.rs`) and the reserve/split helpers
(`reserve`, `reserve_tail`, `reserve_mut`, `reserve_tail_mut` and their
`*_fixed` macro wrappers of `src/reserve.rs`).

Buffers and slices are modelled as `List α`, a Rust panic as `none`, and
`usize` values as natural numbers below `2 ^ 64`, with machine arithmetic
made explicit wherever the source performs it.  Release-mode (wrapping)
semantics is used for the machine arithmetic; at every such point the
debug-mode overflow panic would produce the same observable outcome
(failure of the call), as noted in place.
-/

set_option autoImplicit false

universe u

variable {α : Type u}

/-- The modulus of `usize` arithmetic (a 64-bit target). -/
def USIZE : Nat := 2 ^ 64

/-- Wrapping (release-mode) `usize` addition, as performed by
`$offset + $len` inside `array_ref!` and `array_mut_ref!`. -/
def usize_add (a b : Nat) : Nat := (a + b) % USIZE

/-- Wrapping (release-mode) `usize` subtraction, as performed by
`tmp.len() - len` inside `reserve_tail` and `reserve_tail_mut`. -/
def usize_sub (a b : Nat) : Nat := (a + USIZE - b) % USIZE

/-- Rust slice indexing `&arr[a..b]`: panics unless `a ≤ b` and
`b ≤ arr.len()`; on success the slice holds the elements of `[a, b)`. -/
def slice_index (arr : List α) (a b : Nat) : Option (List α) :=
  if a ≤ b ∧ b ≤ arr.length then some ((arr.drop a).take (b - a)) else none

/-- The end index `$offset + $len` computed by `array_ref!` and
`array_mut_ref!`: plain machine addition (no saturation in the source). -/
def arrayRefEnd (offset len : Nat) : Nat := usize_add offset len

/-- The end index as the specification describes it: saturating addition,
clamping at the largest `usize` value. -/
def arrayRefEndSat (offset len : Nat) : Nat := min (offset + len) (USIZE - 1)

/-- The `array_ref!` macro: `& $arr[$offset..$offset + $len]`, reinterpreted
by an unsafe pointer cast as `&[T; $len]`.  The cast is the identity on the
already-bounds-checked slice, so the model returns the slice itself. -/
def array_ref (arr : List α) (offset len : Nat) : Option (List α) :=
  slice_index arr offset (arrayRefEnd offset len)

/-- A mutable fixed-length view: the region of the underlying buffer that the
pointer casts of `array_mut_ref!` and `mut_array_refs!` alias. -/
structure MutView where
  off : Nat
  len : Nat
  deriving DecidableEq

/-- The `array_mut_ref!` macro: the same bounds check as `array_ref!`
(`&mut $arr[$offset..$offset + $len]`), returning the aliased region. -/
def array_mut_ref (arr : List α) (offset len : Nat) : Option MutView :=
  match slice_index arr offset (arrayRefEnd offset len) with
  | some _ => some ⟨offset, len⟩
  | none => none

/-- Writing `x` at index `i` through a mutable view updates the underlying
buffer at absolute index `off + i`. -/
def MutView.write (v : MutView) (buf : List α) (i : Nat) (x : α) : List α :=
  buf.set (v.off + i) x

/-- Reading index `i` through a view reads the underlying buffer at absolute
index `off + i`. -/
def MutView.read (v : MutView) (buf : List α) (i : Nat) : Option α :=
  buf[v.off + i]?

/-- Checked `usize` addition: an overflowing constant expression is a
compilation error in Rust, modelled as `none`. -/
def usize_add_checked (a b : Nat) : Option Nat :=
  if a + b < USIZE then some (a + b) else none

/-- The left-to-right constant sum `$len1 + $len2 + ... + 0` appearing as the
arity of the input array type of `array_refs!` and `mut_array_refs!`,
evaluated step by step in checked `usize` arithmetic. -/
def usize_sum_checked (lens : List Nat) : Option Nat :=
  lens.foldl (fun acc n => acc.bind (fun s => usize_add_checked s n)) (some 0)

/-- The pointer walk of `array_refs!`: each view is taken at the cursor, which
then advances by the view's length. -/
def as_arrays (a : List α) (lens : List Nat) : List (List α) :=
  match lens with
  | [] => []
  | n :: rest => a.take n :: as_arrays (a.drop n) rest

/-- The `array_refs!` macro: the input must be an array reference of type
`&[T; $len1 + $len2 + ... + 0]`, so its length must equal the checked sum of
the requested lengths; a mismatch, or an overflowing sum, is a compilation
error, modelled as `none`. -/
def array_refs (a : List α) (lens : List Nat) : Option (List (List α)) :=
  match usize_sum_checked lens with
  | some s => if a.length = s then some (as_arrays a lens) else none
  | none => none

/-- The pointer walk of `mut_array_refs!`: the regions of the successive
views, each starting where the previous one ended. -/
def mut_arrays_go (base : Nat) (lens : List Nat) : List MutView :=
  match lens with
  | [] => []
  | n :: rest => ⟨base, n⟩ :: mut_arrays_go (base + n) rest

/-- The `mut_array_refs!` macro: the same arity constraint as `array_refs!`,
returning the regions of the k mutable views. -/
def mut_array_refs (a : List α) (lens : List Nat) : Option (List MutView) :=
  match usize_sum_checked lens with
  | some s => if a.length = s then some (mut_arrays_go 0 lens) else none
  | none => none

/-- Rust `slice::split_at`: panics unless `n ≤ len`. -/
def split_at (l : List α) (n : Nat) : Option (List α × List α) :=
  if n ≤ l.length then some (l.take n, l.drop n) else none

/-- The `reserve` function of `src/reserve.rs`: `mem::replace` empties the
handle, the moved-out view is split at `len`, the remainder is stored back
and the initial segment returned.  The first component is the returned
segment (`none` on panic); the second is the handle's contents after the
call, which the preceding `mem::replace` leaves empty when the split
panics. -/
def reserve (heap : List α) (len : Nat) : Option (List α) × List α :=
  match split_at heap len with
  | some (reserved, rest) => (some reserved, rest)
  | none => (none, [])

/-- The `reserve_tail` function of `src/reserve.rs`: `let l = tmp.len() - len`
is machine subtraction (wrapping in release mode; the debug-mode overflow
panic yields the same failing outcome), then `split_at l` keeps the prefix in
the handle and returns the suffix. -/
def reserve_tail (heap : List α) (len : Nat) : Option (List α) × List α :=
  match split_at heap (usize_sub heap.length len) with
  | some (rest, reserved) => (some reserved, rest)
  | none => (none, [])

/-- The `reserve_mut` function: the same splitting behaviour as `reserve`,
through `split_at_mut`. -/
def reserve_mut (heap : List α) (len : Nat) : Option (List α) × List α :=
  match split_at heap len with
  | some (reserved, rest) => (some reserved, rest)
  | none => (none, [])

/-- The `reserve_tail_mut` function: the same splitting behaviour as
`reserve_tail`, through `split_at_mut`. -/
def reserve_tail_mut (heap : List α) (len : Nat) : Option (List α) × List α :=
  match split_at heap (usize_sub heap.length len) with
  | some (rest, reserved) => (some reserved, rest)
  | none => (none, [])

/-- The `reserve_fixed!` macro: `array_ref![::arrayref::reserve($heap,$len),0,$len]`. -/
def reserve_fixed (heap : List α) (len : Nat) : Option (List α) × List α :=
  match reserve heap len with
  | (some r, h) => (array_ref r 0 len, h)
  | (none, h) => (none, h)

/-- The `reserve_tail_fixed!` macro exactly as written in the source:
`array_ref![::arrayref::reserve($heap,$len),0,$len]` — it calls `reserve`,
not `reserve_tail`, although its documentation promises a trailing
segment. -/
def reserve_tail_fixed (heap : List α) (len : Nat) : Option (List α) × List α :=
  match reserve heap len with
  | (some r, h) => (array_ref r 0 len, h)
  | (none, h) => (none, h)

/-- The `reserve_fixed_mut!` macro:
`array_mut_ref![::arrayref::reserve_mut($heap,$len),0,$len]`.  The fixed view
aliases the whole returned segment, so it is modelled by the segment itself. -/
def reserve_fixed_mut (heap : List α) (len : Nat) : Option (List α) × List α :=
  match reserve_mut heap len with
  | (some r, h) => ((array_mut_ref r 0 len).map (fun _ => r), h)
  | (none, h) => (none, h)

/-- The `reserve_tail_fixed_mut!` macro:
`array_mut_ref![::arrayref::reserve_tail_mut($heap,$len),0,$len]`. -/
def reserve_tail_fixed_mut (heap : List α) (len : Nat) : Option (List α) × List α :=
  match reserve_tail_mut heap len with
  | (some r, h) => ((array_mut_ref r 0 len).map (fun _ => r), h)
  | (none, h) => (none, h)

/-- The eleven-element example buffer of the specification and of the crate's
own tests. -/
def elevenList : List Nat := [0, 1, 2, 3, 4, 5, 6, 7, 8, 9, 10]

/-- The 128-element example buffer holding the values `0, 1, ..., 127`. -/
def list128 : List Nat := List.range 128

/-! ### Helper lemmas on the machine arithmetic -/

theorem USIZE_pos : 0 < USIZE := by norm_num [USIZE]

theorem usize_add_nowrap {a b : Nat} (h : a + b < USIZE) : usize_add a b = a + b :=
  Nat.mod_eq_of_lt h

theorem usize_add_wrap {a b : Nat} (ha : a < USIZE) (hb : b < USIZE)
    (h : USIZE ≤ a + b) : usize_add a b = a + b - USIZE := by
  unfold usize_add
  rw [Nat.mod_eq_sub_mod h]
  exact Nat.mod_eq_of_lt (by omega)

theorem usize_sub_small {a b : Nat} (ha : a < USIZE) (h : b ≤ a) :
    usize_sub a b = a - b := by
  unfold usize_sub
  have hrw : a + USIZE - b = (a - b) + USIZE := by omega
  rw [hrw, Nat.add_mod_right]
  exact Nat.mod_eq_of_lt (by omega)

theorem usize_sub_big {a b : Nat} (hb : b < USIZE) (h : a < b) :
    usize_sub a b = a + USIZE - b := by
  unfold usize_sub
  exact Nat.mod_eq_of_lt (by omega)

/-! ### Helper lemmas on the reserve functions -/

theorem split_at_pos {l : List α} {n : Nat} (h : n ≤ l.length) :
    split_at l n = some (l.take n, l.drop n) := by
  unfold split_at
  exact if_pos h

theorem split_at_neg {l : List α} {n : Nat} (h : l.length < n) :
    split_at l n = none := by
  unfold split_at
  exact if_neg (by omega)

theorem reserve_ok {heap : List α} {len : Nat} (h : len ≤ heap.length) :
    reserve heap len = (some (heap.take len), heap.drop len) := by
  unfold reserve
  rw [split_at_pos h]

theorem reserve_fail {heap : List α} {len : Nat} (h : heap.length < len) :
    reserve heap len = (none, []) := by
  unfold reserve
  rw [split_at_neg h]

theorem reserve_tail_ok {heap : List α} {len : Nat} (hU : heap.length < USIZE)
    (h : len ≤ heap.length) :
    reserve_tail heap len =
      (some (heap.drop (heap.length - len)), heap.take (heap.length - len)) := by
  unfold reserve_tail
  rw [usize_sub_small hU h, split_at_pos (by omega)]

theorem reserve_tail_fail {heap : List α} {len : Nat} (hlen : len < USIZE)
    (h : heap.length < len) : reserve_tail heap len = (none, []) := by
  unfold reserve_tail
  rw [usize_sub_big hlen h, split_at_neg (by omega)]

theorem reserve_mut_eq (heap : List α) (len : Nat) :
    reserve_mut heap len = reserve heap len := rfl

theorem reserve_tail_mut_eq (heap : List α) (len : Nat) :
    reserve_tail_mut heap len = reserve_tail heap len := rfl

/-! ### Claims C1, C2, C9, C10 -/

/-- Claim C1: `reserve_tail_fixed!` is documented (and specified) to remove
the last `len` elements of the handle, exactly as `reserve_tail` does, but the
macro body calls `reserve`, so it removes the first `len` elements instead: on
the handle `[0, 1, 2, 3]` with `len = 2` it returns `[0, 1]` and leaves
`[2, 3]`, while `reserve_tail` returns `[2, 3]` and leaves `[0, 1]`. -/
theorem C1_reserve_tail_fixed_takes_front :
    reserve_tail_fixed ([0, 1, 2, 3] : List Nat) 2 = (some [0, 1], [2, 3]) ∧
    reserve_tail ([0, 1, 2, 3] : List Nat) 2 = (some [2, 3], [0, 1]) ∧
    ((some [0, 1], [2, 3]) : Option (List Nat) × List Nat) ≠ (some [2, 3], [0, 1]) := by
  refine ⟨?_, ?_, by decide⟩ <;> decide

/-- Claim C2, counterexample: the end index of the bounds check in
`array_ref!` is the plain machine sum `$offset + $len`, not a saturating sum:
at `offset = USIZE - 1`, `len = 1` it wraps around to `0` instead of clamping
at `USIZE - 1`. -/
theorem C2_end_index_wraps :
    arrayRefEnd (USIZE - 1) 1 = 0 ∧ arrayRefEndSat (USIZE - 1) 1 = USIZE - 1 ∧
    (0 : Nat) ≠ USIZE - 1 := by
  refine ⟨?_, ?_, ?_⟩ <;> norm_num [arrayRefEnd, arrayRefEndSat, usize_add, USIZE]

/-- Claim C2 (amended): for all `usize` values `offset` and `len` with
`offset + len > length B` — the combinations where `offset + len` overflows
included — `array_ref!` fails with an out-of-bounds panic.  The bounds
computation uses plain wrapping machine addition, not saturating addition,
yet overflow never produces a passing bounds check: without overflow the end
index exceeds the buffer length, and with overflow the wrapped end index
falls below `offset`, so the slice range check fails either way. -/
theorem C2_array_ref_oob (B : List α) (offset len : Nat)
    (ho : offset < USIZE) (hl : len < USIZE) (h : B.length < offset + len) :
    array_ref B offset len = none := by
  unfold array_ref slice_index arrayRefEnd
  rcases Nat.lt_or_ge (offset + len) USIZE with hc | hc
  · rw [usize_add_nowrap hc, if_neg (by omega)]
  · rw [usize_add_wrap ho hl hc, if_neg (by omega)]

theorem C2_array_ref_oob_witness : array_ref ([0] : List Nat) (USIZE - 1) 2 = none :=
  C2_array_ref_oob [0] (USIZE - 1) 2 (by norm_num [USIZE]) (by norm_num [USIZE])
    (by norm_num [USIZE])

/-- Claim C9: a failing reserve call is not atomic.  Each of the four reserve
functions first overwrites the handle with the empty slice (`mem::replace`),
so when `len` exceeds the current length the split panics and the handle is
left denoting the empty view: the pre-call view is lost. -/
theorem C9_failed_reserve_empties_handle (heap : List α) (len : Nat)
    (hlen : len < USIZE) (h : heap.length < len) :
    reserve heap len = (none, []) ∧ reserve_tail heap len = (none, []) ∧
    reserve_mut heap len = (none, []) ∧ reserve_tail_mut heap len = (none, []) := by
  refine ⟨reserve_fail h, reserve_tail_fail hlen h, ?_, ?_⟩
  · rw [reserve_mut_eq]; exact reserve_fail h
  · rw [reserve_tail_mut_eq]; exact reserve_tail_fail hlen h

theorem C9_failed_reserve_empties_handle_witness :
    reserve ([7] : List Nat) 2 = (none, []) ∧
    reserve_tail ([7] : List Nat) 2 = (none, []) ∧
    reserve_mut ([7] : List Nat) 2 = (none, []) ∧
    reserve_tail_mut ([7] : List Nat) 2 = (none, []) :=
  C9_failed_reserve_empties_handle [7] 2 (by norm_num [USIZE]) (by norm_num)

/-- Claim C10: `reserve` (front) and `reserve_tail` (back) with `len = 0`
succeed on every handle, the empty handle included, return the empty view,
and leave the handle's contents unchanged. -/
theorem C10_reserve_zero (heap : List α) (h : heap.length < USIZE) :
    reserve heap 0 = (some [], heap) ∧ reserve_tail heap 0 = (some [], heap) := by
  constructor
  · rw [reserve_ok (Nat.zero_le _)]
    simp
  · rw [reserve_tail_ok h (Nat.zero_le _)]
    simp

theorem C10_reserve_zero_witness :
    reserve ([] : List Nat) 0 = (some [], []) ∧
    reserve_tail ([] : List Nat) 0 = (some [], []) :=
  C10_reserve_zero [] (by norm_num [USIZE])

/-! ### Claims C7 and C3 -/

/-- Claim C7: every reserve operation — front, back, fixed and mutable
variants alike — called with `len` greater than the handle's current
remaining length fails, and never returns a truncated or partially valid
view: the view component of each result is `none`. -/
theorem C7_reserve_oob_fails (heap : List α) (len : Nat)
    (hlen : len < USIZE) (h : heap.length < len) :
    (reserve heap len).1 = none ∧ (reserve_tail heap len).1 = none ∧
    (reserve_mut heap len).1 = none ∧ (reserve_tail_mut heap len).1 = none ∧
    (reserve_fixed heap len).1 = none ∧ (reserve_tail_fixed heap len).1 = none ∧
    (reserve_fixed_mut heap len).1 = none ∧
    (reserve_tail_fixed_mut heap len).1 = none := by
  have h1 : reserve heap len = (none, []) := reserve_fail h
  have h2 : reserve_tail heap len = (none, []) := reserve_tail_fail hlen h
  refine ⟨?_, ?_, ?_, ?_, ?_, ?_, ?_, ?_⟩ <;>
    simp [reserve_fixed, reserve_tail_fixed, reserve_fixed_mut,
      reserve_tail_fixed_mut, reserve_mut_eq, reserve_tail_mut_eq, h1, h2]

theorem C7_reserve_oob_fails_witness :
    (reserve ([0, 1] : List Nat) 3).1 = none ∧
    (reserve_tail ([0, 1] : List Nat) 3).1 = none ∧
    (reserve_mut ([0, 1] : List Nat) 3).1 = none ∧
    (reserve_tail_mut ([0, 1] : List Nat) 3).1 = none ∧
    (reserve_fixed ([0, 1] : List Nat) 3).1 = none ∧
    (reserve_tail_fixed ([0, 1] : List Nat) 3).1 = none ∧
    (reserve_fixed_mut ([0, 1] : List Nat) 3).1 = none ∧
    (reserve_tail_fixed_mut ([0, 1] : List Nat) 3).1 = none :=
  C7_reserve_oob_fails [0, 1] 3 (by norm_num [USIZE]) (by norm_num)

/-- Claim C3: a reserve call with `len` at most the current length `L`
succeeds; the handle's new view has length `L - len`, the returned view has
length `len`, the two are the disjoint parts of the split of the original
view, and concatenation reconstitutes it exactly: `returned ++ newHandle`
for the front operations and `newHandle ++ returned` for the back
operations, with no element lost, duplicated or reordered. -/
theorem C3_reserve_concat (V : List α) (len : Nat)
    (hV : V.length < USIZE) (h : len ≤ V.length) :
    (reserve V len = (some (V.take len), V.drop len) ∧
      V.take len ++ V.drop len = V ∧
      (V.drop len).length = V.length - len ∧ (V.take len).length = len) ∧
    (reserve_tail V len =
        (some (V.drop (V.length - len)), V.take (V.length - len)) ∧
      V.take (V.length - len) ++ V.drop (V.length - len) = V ∧
      (V.take (V.length - len)).length = V.length - len ∧
      (V.drop (V.length - len)).length = len) ∧
    reserve_mut V len = (some (V.take len), V.drop len) ∧
    reserve_tail_mut V len =
      (some (V.drop (V.length - len)), V.take (V.length - len)) := by
  refine ⟨⟨reserve_ok h, List.take_append_drop len V, ?_, ?_⟩,
    ⟨reserve_tail_ok hV h, List.take_append_drop _ V, ?_, ?_⟩, ?_, ?_⟩
  · rw [List.length_drop]
  · rw [List.length_take]
    omega
  · rw [List.length_take]
    omega
  · rw [List.length_drop]
    omega
  · rw [reserve_mut_eq]
    exact reserve_ok h
  · rw [reserve_tail_mut_eq]
    exact reserve_tail_ok hV h

theorem C3_reserve_concat_witness :
    reserve ([5, 6, 7] : List Nat) 1 = (some [5], [6, 7]) ∧
    reserve_tail ([5, 6, 7] : List Nat) 1 = (some [7], [5, 6]) ∧
    reserve_mut ([5, 6, 7] : List Nat) 1 = (some [5], [6, 7]) ∧
    reserve_tail_mut ([5, 6, 7] : List Nat) 1 = (some [7], [5, 6]) := by
  have hC := C3_reserve_concat ([5, 6, 7] : List Nat) 1 (by norm_num [USIZE])
    (by norm_num)
  exact ⟨hC.1.1, hC.2.1.1, hC.2.2.1, hC.2.2.2⟩

/-! ### Claim C4 -/

/-- Claim C4: whenever `offset + len ≤ length B`, `array_ref!` succeeds and
returns a view of length exactly `len` that equals `B[offset..offset+len]`
element-wise; concretely, on the eleven-element buffer `[0, ..., 10]`,
`array_ref B 2 3` returns `[2, 3, 4]` while `array_ref B 1 11` fails, since
`1 + 11 = 12 > 11`. -/
theorem C4_array_ref_in_bounds (B : List α) (offset len : Nat)
    (hB : B.length < USIZE) (h : offset + len ≤ B.length) :
    (array_ref B offset len = some ((B.drop offset).take len) ∧
      ((B.drop offset).take len).length = len ∧
      ∀ i, i < len → ((B.drop offset).take len)[i]? = B[offset + i]?) ∧
    array_ref elevenList 2 3 = some [2, 3, 4] ∧
    array_ref elevenList 1 11 = none := by
  refine ⟨⟨?_, ?_, ?_⟩, by decide, by decide⟩
  · unfold array_ref slice_index arrayRefEnd
    rw [usize_add_nowrap (by omega), if_pos ⟨by omega, h⟩,
      Nat.add_sub_cancel_left]
  · rw [List.length_take, List.length_drop]
    omega
  · intro i hi
    rw [List.getElem?_take, if_pos hi, List.getElem?_drop]

/-! ### Helper lemmas on the checked length sum and the partition walks -/

theorem usize_sum_foldl_none (lens : List Nat) :
    lens.foldl (fun acc n => acc.bind (fun s => usize_add_checked s n)) none = none := by
  induction lens with
  | nil => rfl
  | cons n rest ih => exact ih

theorem usize_sum_acc (lens : List Nat) :
    ∀ acc s : Nat,
      lens.foldl (fun acc n => acc.bind (fun s => usize_add_checked s n)) (some acc) =
        some s →
      s = acc + lens.sum := by
  induction lens with
  | nil =>
    intro acc s h
    simp only [List.foldl_nil, Option.some.injEq] at h
    simp only [List.sum_nil]
    omega
  | cons n rest ih =>
    intro acc s h
    simp only [List.foldl_cons, Option.some_bind] at h
    by_cases hc : acc + n < USIZE
    · rw [usize_add_checked, if_pos hc] at h
      have := ih (acc + n) s h
      simp only [List.sum_cons]
      omega
    · rw [usize_add_checked, if_neg hc, usize_sum_foldl_none] at h
      exact absurd h (by simp)

theorem usize_sum_checked_eq {lens : List Nat} {s : Nat}
    (h : usize_sum_checked lens = some s) : s = lens.sum := by
  unfold usize_sum_checked at h
  have := usize_sum_acc lens 0 s h
  omega

theorem usize_sum_acc_of_lt (lens : List Nat) :
    ∀ acc : Nat, acc + lens.sum < USIZE →
      lens.foldl (fun acc n => acc.bind (fun s => usize_add_checked s n)) (some acc) =
        some (acc + lens.sum) := by
  induction lens with
  | nil =>
    intro acc h
    simp
  | cons n rest ih =>
    intro acc h
    simp only [List.sum_cons] at h
    simp only [List.foldl_cons, Option.some_bind]
    rw [usize_add_checked, if_pos (by omega), ih (acc + n) (by omega)]
    simp only [List.sum_cons, Option.some.injEq]
    omega

theorem usize_sum_checked_of_lt {lens : List Nat} (h : lens.sum < USIZE) :
    usize_sum_checked lens = some lens.sum := by
  unfold usize_sum_checked
  have := usize_sum_acc_of_lt lens 0 (by omega)
  simpa using this

theorem as_arrays_spec (lens : List Nat) :
    ∀ a : List α, lens.sum ≤ a.length →
      (as_arrays a lens).map List.length = lens ∧
      (as_arrays a lens).flatten = a.take lens.sum := by
  induction lens with
  | nil =>
    intro a h
    exact ⟨rfl, by simp [as_arrays]⟩
  | cons n rest ih =>
    intro a h
    simp only [List.sum_cons] at h
    obtain ⟨ih1, ih2⟩ := ih (a.drop n) (by rw [List.length_drop]; omega)
    constructor
    · simp only [as_arrays, List.map_cons, ih1, List.length_take, List.cons.injEq]
      exact ⟨by omega, trivial⟩
    · simp only [as_arrays, List.flatten_cons, ih2, List.sum_cons]
      rw [List.take_add]

theorem as_arrays_getElem (lens : List Nat) :
    ∀ (a : List α) (i : Nat), i < lens.length →
      (as_arrays a lens)[i]? =
        some ((a.drop ((lens.take i).sum)).take (lens[i]?.getD 0)) := by
  induction lens with
  | nil =>
    intro a i hi
    exact absurd hi (by simp)
  | cons n rest ih =>
    intro a i hi
    cases i with
    | zero => simp [as_arrays]
    | succ i =>
      simp only [as_arrays, List.getElem?_cons_succ]
      rw [ih (a.drop n) i (by simpa using hi)]
      simp only [List.take_succ_cons, List.sum_cons, List.drop_drop]

theorem mut_arrays_go_length (base : Nat) (lens : List Nat) :
    (mut_arrays_go base lens).length = lens.length := by
  induction lens generalizing base with
  | nil => rfl
  | cons n rest ih => simp [mut_arrays_go, ih]

theorem mut_arrays_go_getElem (lens : List Nat) :
    ∀ base i : Nat, i < lens.length →
      (mut_arrays_go base lens)[i]? =
        some ⟨base + (lens.take i).sum, lens[i]?.getD 0⟩ := by
  induction lens with
  | nil =>
    intro base i hi
    exact absurd hi (by simp)
  | cons n rest ih =>
    intro base i hi
    cases i with
    | zero => simp [mut_arrays_go]
    | succ i =>
      simp only [mut_arrays_go, List.getElem?_cons_succ]
      rw [ih (base + n) i (by simpa using hi)]
      simp only [List.take_succ_cons, List.sum_cons, List.getElem?_cons_succ,
        Option.some.injEq, MutView.mk.injEq]
      exact ⟨by omega, trivial⟩

theorem sum_take_mono (lens : List Nat) {m n : Nat} (h : m ≤ n) :
    (lens.take m).sum ≤ (lens.take n).sum := by
  have hrw : lens.take n = lens.take m ++ (lens.drop m).take (n - m) := by
    rw [← List.take_add]
    congr 1
    omega
  rw [hrw, List.sum_append]
  omega

theorem sum_take_succ (lens : List Nat) (j : Nat) (hj : j < lens.length) :
    (lens.take (j + 1)).sum = (lens.take j).sum + lens[j]?.getD 0 := by
  rw [List.take_succ, List.sum_append, List.getElem?_eq_getElem hj]
  simp

/-! ### Claims C6 and C5 -/

/-- Claim C6: `array_refs!` and `mut_array_refs!` fail whenever the requested
lengths do not sum exactly to the buffer length, and an overflowing length
sum — evaluated in checked arithmetic as the arity of the input array type,
where overflow is a compilation error — is itself always a failure and never
masks the length check: the overflowing list `[USIZE - 1, 2]` is rejected on
every buffer. -/
theorem C6_partition_sum_mismatch (B : List α) (lens : List Nat)
    (h : B.length ≠ lens.sum) :
    (array_refs B lens = none ∧ mut_array_refs B lens = none) ∧
    (array_refs B [USIZE - 1, 2] = none ∧
      mut_array_refs B [USIZE - 1, 2] = none) := by
  have hover : usize_sum_checked [USIZE - 1, 2] = none := by decide
  refine ⟨?_, ?_⟩
  · unfold array_refs mut_array_refs
    rcases hs : usize_sum_checked lens with _ | s
    · exact ⟨rfl, rfl⟩
    · have := usize_sum_checked_eq hs
      exact ⟨if_neg (by omega), if_neg (by omega)⟩
  · unfold array_refs mut_array_refs
    rw [hover]
    exact ⟨rfl, rfl⟩

theorem C6_partition_sum_mismatch_witness :
    (array_refs ([0] : List Nat) [2] = none ∧
      mut_array_refs ([0] : List Nat) [2] = none) ∧
    (array_refs ([0] : List Nat) [USIZE - 1, 2] = none ∧
      mut_array_refs ([0] : List Nat) [USIZE - 1, 2] = none) :=
  C6_partition_sum_mismatch [0] [2] (by norm_num)

/-- Claim C5: for lengths `N1, ..., Nk` summing exactly to the buffer length,
`array_refs!` returns k contiguous, non-overlapping views of exactly those
lengths covering the whole buffer in order: their in-order concatenation
reproduces the buffer, and view i is the segment of length `Ni` starting at
the sum of the previous lengths, immediately after view i-1 ends;
`mut_array_refs!` produces the matching regions.  Concretely, partitioning
the 128-element buffer `0, ..., 127` by `[1, 14, 3, 100, 10]` yields five
views of those lengths whose third view is `B[15..18]` and whose fifth is
`B[118..128]`. -/
theorem C5_partition (B : List α) (lens : List Nat)
    (hB : B.length < USIZE) (hsum : lens.sum = B.length) :
    (array_refs B lens = some (as_arrays B lens) ∧
      (as_arrays B lens).map List.length = lens ∧
      (as_arrays B lens).flatten = B ∧
      (∀ i, i < lens.length →
        (as_arrays B lens)[i]? =
          some ((B.drop ((lens.take i).sum)).take (lens[i]?.getD 0))) ∧
      mut_array_refs B lens = some (mut_arrays_go 0 lens) ∧
      (∀ i, i < lens.length →
        (mut_arrays_go 0 lens)[i]? =
          some ⟨(lens.take i).sum, lens[i]?.getD 0⟩)) ∧
    ((as_arrays list128 [1, 14, 3, 100, 10]).map List.length =
        [1, 14, 3, 100, 10] ∧
      (as_arrays list128 [1, 14, 3, 100, 10])[2]? = some [15, 16, 17] ∧
      (as_arrays list128 [1, 14, 3, 100, 10])[4]? =
        some [118, 119, 120, 121, 122, 123, 124, 125, 126, 127]) := by
  have husc : usize_sum_checked lens = some lens.sum :=
    usize_sum_checked_of_lt (by omega)
  obtain ⟨hmap, hflat⟩ := as_arrays_spec lens B (by omega)
  refine ⟨⟨?_, hmap, ?_, ?_, ?_, ?_⟩, by decide, by decide, by decide⟩
  · unfold array_refs
    rw [husc]
    exact if_pos hsum.symm
  · rw [hflat, hsum, List.take_length]
  · intro i hi
    exact as_arrays_getElem lens B i hi
  · unfold mut_array_refs
    rw [husc]
    exact if_pos hsum.symm
  · intro i hi
    simpa using mut_arrays_go_getElem lens 0 i hi

theorem C5_partition_witness :
    array_refs ([10, 20, 30] : List Nat) [1, 2] = some [[10], [20, 30]] ∧
    (as_arrays ([10, 20, 30] : List Nat) [1, 2]).flatten = [10, 20, 30] ∧
    mut_array_refs ([10, 20, 30] : List Nat) [1, 2] = some [⟨0, 1⟩, ⟨1, 2⟩] := by
  obtain ⟨⟨h1, h2, h3, h4, h5, h6⟩, hconc⟩ :=
    C5_partition ([10, 20, 30] : List Nat) [1, 2] (by norm_num [USIZE])
      (by norm_num)
  exact ⟨h1.trans (by decide), h3, h5.trans (by decide)⟩

theorem C4_array_ref_in_bounds_witness :
    (array_ref elevenList 2 3 = some ((elevenList.drop 2).take 3) ∧
      ((elevenList.drop 2).take 3).length = 3 ∧
      ∀ i, i < 3 → ((elevenList.drop 2).take 3)[i]? = elevenList[2 + i]?) ∧
    array_ref elevenList 2 3 = some [2, 3, 4] ∧
    array_ref elevenList 1 11 = none :=
  C4_array_ref_in_bounds elevenList 2 3 (by decide) (by decide)

/-! ### Claim C8 -/

theorem array_mut_ref_some {B : List α} {offset len : Nat} {v : MutView}
    (h : array_mut_ref B offset len = some v) :
    v = MutView.mk offset len ∧ offset ≤ usize_add offset len ∧
      usize_add offset len ≤ B.length := by
  unfold array_mut_ref slice_index arrayRefEnd at h
  by_cases hc : offset ≤ usize_add offset len ∧ usize_add offset len ≤ B.length
  · rw [if_pos hc] at h
    exact ⟨(Option.some.inj h).symm, hc.1, hc.2⟩
  · rw [if_neg hc] at h
    exact absurd h (by simp)

theorem mut_array_refs_some {B : List α} {lens : List Nat} {vs : List MutView}
    (h : mut_array_refs B lens = some vs) :
    vs = mut_arrays_go 0 lens := by
  unfold mut_array_refs at h
  rcases hs : usize_sum_checked lens with _ | s
  · rw [hs] at h
    exact absurd h (by simp)
  · rw [hs] at h
    have h2 : (if B.length = s then some (mut_arrays_go 0 lens) else none) = some vs := h
    by_cases hb : B.length = s
    · rw [if_pos hb] at h2
      exact (Option.some.inj h2).symm
    · rw [if_neg hb] at h2
      exact absurd h2 (by simp)

/-- Claim C8: a write through a mutable fixed view obtained by
`array_mut_ref!` at view index `i` is observed when the source buffer is then
read at the absolute index `offset + i`; and for two distinct views of a
mutable partition obtained by `mut_array_refs!`, a write through one view
leaves every element visible through the other view unchanged. -/
theorem C8_mutation_isolation (B : List α) (offset len : Nat) (v : MutView)
    (ho : offset < USIZE) (hl : len < USIZE)
    (hv : array_mut_ref B offset len = some v)
    (i : Nat) (hi : i < len) (x : α)
    (lens : List Nat) (vs : List MutView) (hvs : mut_array_refs B lens = some vs)
    (j k : Nat) (vj vk : MutView) (hvj : vs[j]? = some vj) (hvk : vs[k]? = some vk)
    (hjk : j ≠ k) (i1 i2 : Nat) (h1 : i1 < vj.len) (h2 : i2 < vk.len) (y : α) :
    (v.write B i x)[offset + i]? = some x ∧
    vk.read (vj.write B i1 y) i2 = vk.read B i2 := by
  constructor
  · obtain ⟨hv2, hle, hub⟩ := array_mut_ref_some hv
    have hnw : offset + len < USIZE := by
      by_contra hge
      rw [usize_add_wrap ho hl (by omega)] at hle
      omega
    rw [usize_add_nowrap hnw] at hub
    subst hv2
    show (B.set (offset + i) x)[offset + i]? = some x
    exact List.getElem?_set_self (by omega)
  · have hvs2 := mut_array_refs_some hvs
    subst hvs2
    obtain ⟨hj0, -⟩ := List.getElem?_eq_some.mp hvj
    obtain ⟨hk0, -⟩ := List.getElem?_eq_some.mp hvk
    rw [mut_arrays_go_length] at hj0 hk0
    rw [mut_arrays_go_getElem lens 0 j hj0] at hvj
    rw [mut_arrays_go_getElem lens 0 k hk0] at hvk
    have hvj2 : vj = MutView.mk (0 + (lens.take j).sum) (lens[j]?.getD 0) :=
      (Option.some.inj hvj).symm
    have hvk2 : vk = MutView.mk (0 + (lens.take k).sum) (lens[k]?.getD 0) :=
      (Option.some.inj hvk).symm
    subst hvj2
    subst hvk2
    have h1x : i1 < lens[j]?.getD 0 := h1
    have h2x : i2 < lens[k]?.getD 0 := h2
    have ej := sum_take_succ lens j hj0
    have ek := sum_take_succ lens k hk0
    have hne : (0 + (lens.take j).sum) + i1 ≠ (0 + (lens.take k).sum) + i2 := by
      rcases Nat.lt_or_ge j k with hlt | hge
      · have hmono := sum_take_mono lens (show j + 1 ≤ k by omega)
        omega
      · have hmono := sum_take_mono lens (show k + 1 ≤ j by omega)
        omega
    show (B.set ((0 + (lens.take j).sum) + i1) y)[(0 + (lens.take k).sum) + i2]? =
      B[(0 + (lens.take k).sum) + i2]?
    exact List.getElem?_set_ne hne

theorem C8_mutation_isolation_witness :
    ((MutView.mk 1 2).write ([0, 1, 2, 3] : List Nat) 0 9)[1 + 0]? = some 9 ∧
    (MutView.mk 2 2).read ((MutView.mk 0 2).write ([0, 1, 2, 3] : List Nat) 0 7) 1 =
      (MutView.mk 2 2).read ([0, 1, 2, 3] : List Nat) 1 :=
  C8_mutation_isolation [0, 1, 2, 3] 1 2 (MutView.mk 1 2)
    (by norm_num [USIZE]) (by norm_num [USIZE]) (by decide) 0 (by norm_num) 9
    [2, 2] [MutView.mk 0 2, MutView.mk 2 2] (by decide)
    0 1 (MutView.mk 0 2) (MutView.mk 2 2) (by decide) (by decide) (by norm_num)
    0 1 (by norm_num) (by norm_num) 7
